import Mathlib

/-!
Line follower robot: sensor error, error history, PID correction, motor speeds.

A shallow embedding of `Program/DMotor_linefollower.c`.

Modelling conventions.

* `float` values are modelled by exact rationals (`ℚ`).  Every error the program
  computes with 8 sensors is a multiple of `1/8` of magnitude at most 62, so the
  rational arithmetic agrees with binary floating point on the errors; `pow (x, 3)`
  is modelled by the exact cube and `1.07` by `107/100`.
* Machine integers are `Int`/`Nat` with explicit reduction modulo `2^16` (and `2^8`
  for the timer compare registers).  `int` is 16 bits wide on the AVR target; with a
  wider `int` the values stored in the `int16_t` speeds are the same.
* A cast from `float` to an unsigned integer type discards the fractional part and
  keeps the low bits of the two's complement integer.  This is how a negative
  correction reaches the motor speeds in the source: `(uint16_t) (-42.875)` is
  `65494`, and `155 - 65494` is `197` modulo `2^16`.
* The compile-time constants (`QTY_OF_SENSORS`, `QTY_OF_ERR`, the gains,
  `MOTORS_NOT_PERFECT`) are parameters of the functions; the configured values are
  separate definitions.
* `ReadSensorLineData` reads the hardware pins; its result, the array `line_data`,
  is the input of the model.
-/

namespace Folkrace

/-! ## Configured constants (the `#define` section) -/

/-- The configured `QTY_OF_SENSORS` (`8U`). -/
def QTY_OF_SENSORS : Nat := 8

/-- The configured `AVG_SPEED` (`(uint8_t) 155`). -/
def AVG_SPEED : Nat := 155

/-- The configured `MOTORS_NOT_PERFECT`. -/
def MOTORS_NOT_PERFECT : Bool := true

/-- The configured `L_MOTOR_MISMATCH` (`(float) 1.0`). -/
def L_MOTOR_MISMATCH : ℚ := 1

/-- The configured `R_MOTOR_MISMATCH` (`(float) 1.07`). -/
def R_MOTOR_MISMATCH : ℚ := 107 / 100

/-- The configured `kP` (`(uint8_t) 1`). -/
def kP : Nat := 1

/-- The configured `kI` (`(uint8_t) 0`). -/
def kI : Nat := 0

/-- The configured `kD` (`(uint8_t) 0`). -/
def kD : Nat := 0

/-- The configured `QTY_OF_ERR` (`(uint8_t) 10`). -/
def QTY_OF_ERR : Nat := 10

/-! ## `CurrentRobotError` -/

/-- The expression `QTY_OF_SENSORS / 2 - 0.5 - i` of `CurrentRobotError`, for a sensor
count `N`.  `QTY_OF_SENSORS` is an unsigned integer constant, so `QTY_OF_SENSORS / 2`
is the integer quotient; the subtraction of `0.5` then takes place in floating point. -/
def sensorOffset (N i : Nat) : ℚ := ((N / 2 : Nat) : ℚ) - 1 / 2 - (i : ℚ)

/-- One iteration of the `for` loop of `CurrentRobotError`: when `line_data[i] != 0`
the cube of the offset is added to `current_error`. -/
def errorStep (N : Nat) (line_data : Fin N → Bool) (current_error : ℚ) (i : Fin N) : ℚ :=
  if line_data i != false then current_error + sensorOffset N i.val ^ 3 else current_error

/-- `CurrentRobotError`, on the sensor values `line_data` that `ReadSensorLineData`
stored: `current_error` starts at `0.0` and the loop runs over `i = 0 .. N - 1`. -/
def CurrentRobotError (N : Nat) (line_data : Fin N → Bool) : ℚ :=
  (List.finRange N).foldl (errorStep N line_data) 0

/-- The reading in which only sensor `k` reads non-zero. -/
def onlySensor (N k : Nat) : Fin N → Bool := fun i => decide (i.val = k)

/-- The reading mirrored left to right. -/
def mirrorReading (N : Nat) (line_data : Fin N → Bool) : Fin N → Bool :=
  fun i => line_data (Fin.rev i)

/-- The contribution of sensor `i` to the error: the cubed offset when the sensor
reads non-zero, nothing otherwise. -/
def sensorTerm (N : Nat) (line_data : Fin N → Bool) (i : Fin N) : ℚ :=
  if line_data i = true then sensorOffset N i.val ^ 3 else 0

/-! ## The error history (`error_history`, shifted once per cycle) -/

/-- One iteration of the shift loop: `error_history[i] = error_history[i + 1]`. -/
def shiftStep (error_history : List ℚ) (i : Nat) : List ℚ :=
  error_history.set i (error_history.getD (i + 1) 0)

/-- The shift loop `for (i = 0; i < QTY_OF_ERR - 1; i++)`, for a history size `H`. -/
def shiftErrors (H : Nat) (error_history : List ℚ) : List ℚ :=
  (List.range (H - 1)).foldl shiftStep error_history

/-- The per-cycle push: the shift loop, then `error_history[QTY_OF_ERR - 1] = e`. -/
def pushError (H : Nat) (error_history : List ℚ) (e : ℚ) : List ℚ :=
  (shiftErrors H error_history).set (H - 1) e

/-- The initial `error_history` (`= {0}`): `H` zeros. -/
def initialHistory (H : Nat) : List ℚ := List.replicate H 0

/-! ## The PID terms -/

/-- The loop `for (i = 0; i < QTY_OF_ERR; i++) error_sum += error_history[i]`,
started from `error_sum = 0.0`. -/
def error_sum (H : Nat) (error_history : List ℚ) : ℚ :=
  (List.range H).foldl (fun s i => s + error_history.getD i 0) 0

/-- The correction `PID_total_correction = (P + I) + D` of the main cycle, computed on
the history as it stands after the push, for gains `kp`, `ki`, `kd`. -/
def PID_total_correction (H kp ki kd : Nat) (error_history : List ℚ) : ℚ :=
  let P := error_history.getD (H - 1) 0 * (kp : ℚ)
  let I := error_sum H error_history * (ki : ℚ)
  let D := (error_history.getD (H - 1) 0 - error_history.getD 0 0) * (kd : ℚ)
  (P + I) + D

/-! ## Motor speeds -/

/-- Conversion of a floating-point value to an integer: the fractional part is
discarded (truncation toward zero). -/
def truncQ (x : ℚ) : Int := if 0 ≤ x then ⌊x⌋ else ⌈x⌉

/-- The cast `(uint16_t) x` of a floating-point value: truncation, low 16 bits kept. -/
def castU16 (x : ℚ) : Int := truncQ x % 65536

/-- The value an `int16_t` variable holds after being assigned the integer `x`. -/
def toInt16 (x : Int) : Int :=
  if x % 65536 < 32768 then x % 65536 else x % 65536 - 65536

/-- The assignment `left_motor_speed = AVG_SPEED - (uint16_t) PID_total_correction`:
the subtraction is carried out in 16-bit unsigned arithmetic, the result is stored
in an `int16_t`. -/
def left_raw (c : ℚ) : Int := toInt16 (((AVG_SPEED : Int) - castU16 c) % 65536)

/-- The assignment `right_motor_speed = AVG_SPEED + (uint16_t) PID_total_correction`. -/
def right_raw (c : ℚ) : Int := toInt16 (((AVG_SPEED : Int) + castU16 c) % 65536)

/-- The range validation applied to each motor speed:
`if (s > 255) s = 255; else if (s < 0) s = 0;`. -/
def validateRange (s : Int) : Int := if s > 255 then 255 else if s < 0 then 0 else s

/-- The variable `left_motor_speed` after the range validation. -/
def left_motor_speed (c : ℚ) : Int := validateRange (left_raw c)

/-- The variable `right_motor_speed` after the range validation. -/
def right_motor_speed (c : ℚ) : Int := validateRange (right_raw c)

/-- The saturating clamp of the specification, on unbounded integers: a value below 0
becomes 0, a value above 255 becomes 255, a value within `[0, 255]` is unchanged.  It is
the reference the range validation of the source is compared with. -/
def clampDuty (x : Int) : Int := max 0 (min 255 x)

/-- The value assigned to `OCR2B`, before its conversion to the 8-bit register:
`left_motor_speed * L_MOTOR_MISMATCH` when `MOTORS_NOT_PERFECT`, else `left_motor_speed`. -/
def leftDuty (notPerfect : Bool) (speed : Int) : ℚ :=
  if notPerfect then (speed : ℚ) * L_MOTOR_MISMATCH else (speed : ℚ)

/-- The value assigned to `OCR0B`, before its conversion to the 8-bit register:
`right_motor_speed * R_MOTOR_MISMATCH` when `MOTORS_NOT_PERFECT`, else `right_motor_speed`. -/
def rightDuty (notPerfect : Bool) (speed : Int) : ℚ :=
  if notPerfect then (speed : ℚ) * R_MOTOR_MISMATCH else (speed : ℚ)

/-- Storing a value in an 8-bit timer compare register: truncation, low 8 bits kept. -/
def castU8 (x : ℚ) : Nat := (truncQ x % 256).toNat

/-- What one pass of the main cycle produces: the correction, the validated motor
speeds, the values assigned to `OCR2B` and `OCR0B` before their conversion to 8 bits,
and the four compare registers. -/
structure CycleOutput where
  correction : ℚ
  leftSpeed : Int
  rightSpeed : Int
  leftValue : ℚ
  rightValue : ℚ
  OCR2A : Nat
  OCR2B : Nat
  OCR0A : Nat
  OCR0B : Nat
deriving Repr, DecidableEq

/-- The motor part of the main cycle, from the correction to the registers. -/
def writeMotors (notPerfect : Bool) (c : ℚ) : CycleOutput :=
  { correction := c
    leftSpeed := left_motor_speed c
    rightSpeed := right_motor_speed c
    leftValue := leftDuty notPerfect (left_motor_speed c)
    rightValue := rightDuty notPerfect (right_motor_speed c)
    OCR2A := 0
    OCR2B := castU8 (leftDuty notPerfect (left_motor_speed c))
    OCR0A := 0
    OCR0B := castU8 (rightDuty notPerfect (right_motor_speed c)) }

/-! ## The main cycle -/

/-- One pass of the `while (true)` body: the error of the reading is pushed on the
history, the correction is computed from the history and the motors are written.
Returns the history for the next pass and what the pass produced. -/
def mainCycle (N H kp ki kd : Nat) (notPerfect : Bool) (error_history : List ℚ)
    (line_data : Fin N → Bool) : List ℚ × CycleOutput :=
  let history := pushError H error_history (CurrentRobotError N line_data)
  (history, writeMotors notPerfect (PID_total_correction H kp ki kd history))

/-- The main cycle run over a finite sequence of readings: what every pass produced,
in order. -/
def runCycles (N H kp ki kd : Nat) (notPerfect : Bool) :
    List ℚ → List (Fin N → Bool) → List CycleOutput
  | _, [] => []
  | error_history, line_data :: rest =>
    (mainCycle N H kp ki kd notPerfect error_history line_data).2
      :: runCycles N H kp ki kd notPerfect
          (mainCycle N H kp ki kd notPerfect error_history line_data).1 rest

/-- The main cycle as configured, started from the initial history. -/
def runConfigured (readings : List (Fin QTY_OF_SENSORS → Bool)) : List CycleOutput :=
  runCycles QTY_OF_SENSORS QTY_OF_ERR kP kI kD MOTORS_NOT_PERFECT
    (initialHistory QTY_OF_ERR) readings

/-! ## Facts about `CurrentRobotError` -/

theorem errorStep_eq_add (N : Nat) (line_data : Fin N → Bool) (acc : ℚ) (i : Fin N) :
    errorStep N line_data acc i = acc + sensorTerm N line_data i := by
  unfold errorStep sensorTerm
  cases h : line_data i <;> simp

theorem foldl_errorStep (N : Nat) (line_data : Fin N → Bool) (l : List (Fin N)) (acc : ℚ) :
    l.foldl (errorStep N line_data) acc = acc + (l.map (sensorTerm N line_data)).sum := by
  induction l generalizing acc with
  | nil => simp
  | cons a t ih =>
    simp only [List.foldl_cons, List.map_cons, List.sum_cons]
    rw [ih, errorStep_eq_add]
    ring

/-- The loop of `CurrentRobotError` computes the sum of the sensor terms. -/
theorem CurrentRobotError_eq_sum (N : Nat) (line_data : Fin N → Bool) :
    CurrentRobotError N line_data = ∑ i : Fin N, sensorTerm N line_data i := by
  unfold CurrentRobotError
  rw [foldl_errorStep, zero_add, Fin.sum_univ_def]

theorem sensorOffset_eight (i : Nat) : sensorOffset 8 i = 7 / 2 - (i : ℚ) := by
  unfold sensorOffset
  norm_num

/-- For an even sensor count the offsets are antisymmetric about the centre. -/
theorem sensorOffset_even_symmetric (N i : Nat) (hN : N % 2 = 0) (hi : i < N) :
    sensorOffset N i = - sensorOffset N (N - 1 - i) := by
  obtain ⟨m, rfl⟩ : ∃ m, N = 2 * m := ⟨N / 2, by omega⟩
  have hdiv : 2 * m / 2 = m := by omega
  have hsub : ((2 * m - 1 - i : Nat) : ℚ) = 2 * (m : ℚ) - 1 - (i : ℚ) := by
    have h1 : 1 ≤ 2 * m := by omega
    have h2 : i ≤ 2 * m - 1 := by omega
    rw [Nat.cast_sub h2, Nat.cast_sub h1]
    push_cast
    ring
  unfold sensorOffset
  rw [hdiv, hsub]
  ring

theorem sensorTerm_mirror (N : Nat) (hN : N % 2 = 0) (line_data : Fin N → Bool) (i : Fin N) :
    sensorTerm N (mirrorReading N line_data) i = - sensorTerm N line_data (Fin.rev i) := by
  have hoff : sensorOffset N (Fin.rev i).val = - sensorOffset N i.val := by
    have h := sensorOffset_even_symmetric N (Fin.rev i).val hN (Fin.rev i).isLt
    have hidx : N - 1 - (Fin.rev i).val = i.val := by
      have := i.isLt
      simp only [Fin.val_rev]
      omega
    rw [hidx] at h
    rw [h]
  unfold sensorTerm mirrorReading
  rw [hoff]
  split_ifs
  · have h3 : Odd 3 := by decide
    rw [h3.neg_pow]
    ring
  · simp

/-- For an even sensor count, mirroring the reading left to right negates the error. -/
theorem CurrentRobotError_mirror (N : Nat) (hN : N % 2 = 0) (line_data : Fin N → Bool) :
    CurrentRobotError N (mirrorReading N line_data) = - CurrentRobotError N line_data := by
  rw [CurrentRobotError_eq_sum, CurrentRobotError_eq_sum]
  have h1 : ∑ i : Fin N, sensorTerm N (mirrorReading N line_data) i
      = ∑ i : Fin N, - sensorTerm N line_data (Fin.rev i) :=
    Finset.sum_congr rfl (fun i _ => sensorTerm_mirror N hN line_data i)
  rw [h1, Finset.sum_neg_distrib]
  congr 1
  exact Equiv.sum_comp Fin.revPerm (sensorTerm N line_data)

theorem mirrorReading_const (N : Nat) (b : Bool) :
    mirrorReading N (fun _ => b) = fun _ => b := rfl

theorem CurrentRobotError_all_true_even (N : Nat) (hN : N % 2 = 0) :
    CurrentRobotError N (fun _ => true) = 0 := by
  have h := CurrentRobotError_mirror N hN (fun _ => true)
  rw [mirrorReading_const] at h
  linarith

theorem CurrentRobotError_all_false (N : Nat) :
    CurrentRobotError N (fun _ => false) = 0 := by
  rw [CurrentRobotError_eq_sum]
  simp [sensorTerm]

/-! ## Claims about `CurrentRobotError` -/

/-- C1: for every reading of the 8 sensors, `CurrentRobotError` returns the sum, over
the indices `i` whose sensor reads non-zero, of `(3.5 - i)^3`; sensors reading zero
contribute nothing.  Only sensor 0 off gives `42.875`, only sensor 7 off gives
`-42.875`. -/
theorem CurrentRobotError_sum_of_cubes (line_data : Fin 8 → Bool) :
    CurrentRobotError 8 line_data
        = ∑ i ∈ Finset.univ.filter (fun i : Fin 8 => line_data i ≠ false),
            ((3.5 : ℚ) - (i.val : ℚ)) ^ 3
      ∧ CurrentRobotError 8 (onlySensor 8 0) = 42.875
      ∧ CurrentRobotError 8 (onlySensor 8 7) = -42.875 := by
  refine ⟨?_, ?_, ?_⟩
  · rw [CurrentRobotError_eq_sum, Finset.sum_filter]
    refine Finset.sum_congr rfl (fun i _ => ?_)
    unfold sensorTerm
    rw [sensorOffset_eight]
    cases line_data i <;> norm_num
  · rw [CurrentRobotError_eq_sum]
    simp [Fin.sum_univ_succ, sensorTerm, sensorOffset, onlySensor]
    norm_num
  · rw [CurrentRobotError_eq_sum]
    simp [Fin.sum_univ_succ, sensorTerm, sensorOffset, onlySensor]
    norm_num

/-- C8: for every reading in which all sensors read zero, `CurrentRobotError`
returns exactly 0. -/
theorem CurrentRobotError_all_on_line (N : Nat) (line_data : Fin N → Bool)
    (h : ∀ i, line_data i = false) : CurrentRobotError N line_data = 0 := by
  have hld : line_data = fun _ => false := funext h
  rw [hld]
  exact CurrentRobotError_all_false N

theorem CurrentRobotError_all_on_line_witness :
    (∀ i : Fin 8, (fun _ : Fin 8 => false) i = false)
      ∧ CurrentRobotError 8 (fun _ => false) = 0 :=
  ⟨fun _ => rfl, CurrentRobotError_all_on_line 8 (fun _ => false) (fun _ => rfl)⟩

/-- C9: with an odd sensor count the offsets computed as `QTY_OF_SENSORS / 2 - 0.5 - i`
are not symmetric about the centre.  For 7 sensors, sensor 0 has offset `2.5` and the
mirrored sensor 6 has offset `-3.5`; the reading with only sensor 0 off has error
`15.625`, the mirrored reading has error `-42.875`. -/
theorem sensorOffset_odd_count_asymmetric :
    sensorOffset 7 0 = 5 / 2
      ∧ sensorOffset 7 (7 - 1 - 0) = -(7 / 2)
      ∧ sensorOffset 7 0 ≠ - sensorOffset 7 (7 - 1 - 0)
      ∧ CurrentRobotError 7 (onlySensor 7 0) = 125 / 8
      ∧ CurrentRobotError 7 (mirrorReading 7 (onlySensor 7 0)) = -(343 / 8)
      ∧ CurrentRobotError 7 (mirrorReading 7 (onlySensor 7 0))
          ≠ - CurrentRobotError 7 (onlySensor 7 0) := by
  have h0 : sensorOffset 7 0 = 5 / 2 := by
    unfold sensorOffset; norm_num
  have h6 : sensorOffset 7 (7 - 1 - 0) = -(7 / 2) := by
    unfold sensorOffset; norm_num
  have e0 : CurrentRobotError 7 (onlySensor 7 0) = 125 / 8 := by
    rw [CurrentRobotError_eq_sum]
    simp [Fin.sum_univ_succ, sensorTerm, sensorOffset, onlySensor]
    norm_num
  have e6 : CurrentRobotError 7 (mirrorReading 7 (onlySensor 7 0)) = -(343 / 8) := by
    rw [CurrentRobotError_eq_sum]
    simp [Fin.sum_univ_succ, sensorTerm, sensorOffset, onlySensor, mirrorReading, Fin.rev]
    norm_num
  refine ⟨h0, h6, ?_, e0, e6, ?_⟩
  · rw [h0, h6]; norm_num
  · rw [e0, e6]; norm_num

/-! ## Facts about the error history -/

theorem foldl_shiftStep_getElem? (h : List ℚ) (k : Nat) (hk : k + 1 ≤ h.length) :
    ((List.range k).foldl shiftStep h).length = h.length
      ∧ ∀ j, ((List.range k).foldl shiftStep h)[j]? = if j < k then h[j + 1]? else h[j]? := by
  induction k with
  | zero => simp
  | succ k ih =>
    obtain ⟨hlen, hget⟩ := ih (by omega)
    rw [List.range_succ, List.foldl_append]
    simp only [List.foldl_cons, List.foldl_nil]
    refine ⟨by simp [shiftStep, hlen], fun j => ?_⟩
    have hk1 : h[k + 1]? = some h[k + 1] := List.getElem?_eq_getElem (by omega)
    have hstep : ∀ L : List ℚ, shiftStep L k = L.set k (L.getD (k + 1) 0) := fun _ => rfl
    rw [hstep, List.getElem?_set, List.getD_eq_getElem?_getD, hget (k + 1), hlen]
    by_cases hjk : k = j
    · subst hjk
      have h1 : k < h.length := by omega
      simp [h1, hk1]
    · rw [if_neg hjk, hget j]
      by_cases hj : j < k
      · have hj1 : j < k + 1 := by omega
        rw [if_pos hj, if_pos hj1]
      · have hj1 : ¬ j < k + 1 := by omega
        rw [if_neg hj, if_neg hj1]

/-- On a history of `H` entries the push drops the entry at index 0, keeps the others
in order one place lower and stores the new error last. -/
theorem pushError_eq (H : Nat) (h : List ℚ) (e : ℚ) (hlen : h.length = H) (hpos : 0 < H) :
    pushError H h e = h.tail ++ [e] := by
  obtain ⟨hl, hget⟩ := foldl_shiftStep_getElem? h (H - 1) (by omega)
  apply List.ext_getElem?
  intro j
  unfold pushError shiftErrors
  rw [List.getElem?_set, hl, hget j]
  have htl : h.tail.length = H - 1 := by simp [hlen]
  by_cases hj : j < H - 1
  · have hne : ¬ H - 1 = j := by omega
    rw [if_neg hne, if_pos hj, List.getElem?_append_left (by omega), List.getElem?_tail]
  · by_cases hje : H - 1 = j
    · have h1 : H - 1 < h.length := by omega
      rw [if_pos hje, if_pos h1, List.getElem?_append_right (by omega)]
      simp [htl, hje]
    · have h1 : h.length ≤ j := by omega
      rw [if_neg hje, if_neg hj, List.getElem?_eq_none h1, List.getElem?_eq_none]
      simp only [List.length_append, List.length_singleton, htl]
      omega

theorem foldl_shiftStep_length (l : List Nat) (h : List ℚ) :
    (l.foldl shiftStep h).length = h.length := by
  induction l generalizing h with
  | nil => rfl
  | cons a t ih =>
    rw [List.foldl_cons, ih]
    simp [shiftStep]

theorem pushError_length (H : Nat) (h : List ℚ) (e : ℚ) :
    (pushError H h e).length = h.length := by
  unfold pushError shiftErrors
  rw [List.length_set, foldl_shiftStep_length]

/-- Pushing the values `vs` one after the other leaves the last `H` entries of the old
history followed by `vs`. -/
theorem foldl_pushError (H : Nat) (hpos : 0 < H) (vs h : List ℚ) (hlen : h.length = H) :
    vs.foldl (pushError H) h = (h ++ vs).drop vs.length := by
  induction vs generalizing h with
  | nil => simp
  | cons v t ih =>
    rw [List.foldl_cons, pushError_eq H h v hlen hpos]
    have hl : (h.tail ++ [v]).length = H := by
      simp only [List.length_append, List.length_tail, List.length_singleton, hlen]
      omega
    rw [ih _ hl]
    cases h with
    | nil => simp at hlen; omega
    | cons a h1 => simp

theorem foldl_add_getD (h : List ℚ) (l : List Nat) (a : ℚ) :
    l.foldl (fun s i => s + h.getD i 0) a = a + (l.map (fun i => h.getD i 0)).sum := by
  induction l generalizing a with
  | nil => simp
  | cons x t ih =>
    simp only [List.foldl_cons, List.map_cons, List.sum_cons]
    rw [ih]
    ring

theorem map_getD_range (h : List ℚ) :
    (List.range h.length).map (fun i => h.getD i 0) = h := by
  apply List.ext_getElem (by simp)
  intro i h1 h2
  simp [List.getD_eq_getElem?_getD, List.getElem?_eq_getElem h2]

/-- The summation loop computes the sum of the `H` entries. -/
theorem error_sum_eq (H : Nat) (h : List ℚ) (hlen : h.length = H) :
    error_sum H h = h.sum := by
  unfold error_sum
  rw [foldl_add_getD, zero_add, ← hlen, map_getD_range]

/-! ## Claims about the history and the correction -/

/-- C2: for every history of 10 errors as it stands after the push and all gains, the
correction of the main cycle is `Newest * kP + Sum * kI + (Newest - Oldest) * kD`, with
`Newest` the entry at index 9, `Oldest` the entry at index 0 and `Sum` the sum of the
entries; with the configured gains `kP = 1`, `kI = kD = 0` it is `Newest`. -/
theorem PID_total_correction_formula (kp ki kd : Nat) (history : List ℚ)
    (hlen : history.length = QTY_OF_ERR) :
    PID_total_correction QTY_OF_ERR kp ki kd history
        = history.getD (QTY_OF_ERR - 1) 0 * (kp : ℚ) + history.sum * (ki : ℚ)
          + (history.getD (QTY_OF_ERR - 1) 0 - history.getD 0 0) * (kd : ℚ)
      ∧ PID_total_correction QTY_OF_ERR kP kI kD history = history.getD (QTY_OF_ERR - 1) 0
      ∧ PID_total_correction QTY_OF_ERR 1 0 0 history = history.getD 9 0 := by
  have hs := error_sum_eq QTY_OF_ERR history hlen
  refine ⟨?_, ?_, ?_⟩
  · unfold PID_total_correction
    rw [hs]
  · unfold PID_total_correction
    simp [kP, kI, kD]
  · unfold PID_total_correction
    simp [QTY_OF_ERR]

theorem PID_total_correction_formula_witness :
    [(1 : ℚ), 2, 3, 4, 5, 6, 7, 8, 9, 10].length = QTY_OF_ERR
      ∧ PID_total_correction QTY_OF_ERR kP kI kD [1, 2, 3, 4, 5, 6, 7, 8, 9, 10]
          = ([1, 2, 3, 4, 5, 6, 7, 8, 9, 10] : List ℚ).getD (QTY_OF_ERR - 1) 0 :=
  ⟨rfl, (PID_total_correction_formula 1 0 0 [1, 2, 3, 4, 5, 6, 7, 8, 9, 10] rfl).2.1⟩

/-- C3: the push on a history of 10 entries keeps the length 10, moves every old entry
at index `i + 1` (`i < 9`) to index `i`, stores the new error at index 9 and discards
only the old entry at index 0; after 10 pushes of the values `vs` the history is `vs`,
so the entry at index 0 is the first value pushed and the entry at index 9 the last. -/
theorem pushError_sliding_window (h vs : List ℚ) (e : ℚ)
    (hlen : h.length = QTY_OF_ERR) (hvs : vs.length = QTY_OF_ERR) :
    (pushError QTY_OF_ERR h e).length = QTY_OF_ERR
      ∧ (∀ i, i < QTY_OF_ERR - 1 → (pushError QTY_OF_ERR h e).getD i 0 = h.getD (i + 1) 0)
      ∧ (pushError QTY_OF_ERR h e).getD (QTY_OF_ERR - 1) 0 = e
      ∧ pushError QTY_OF_ERR h e = h.tail ++ [e]
      ∧ vs.foldl (pushError QTY_OF_ERR) h = vs
      ∧ (vs.foldl (pushError QTY_OF_ERR) h).getD 0 0 = vs.getD 0 0
      ∧ (vs.foldl (pushError QTY_OF_ERR) h).getD (QTY_OF_ERR - 1) 0
          = vs.getD (QTY_OF_ERR - 1) 0 := by
  have hpos : 0 < QTY_OF_ERR := by decide
  have hpush := pushError_eq QTY_OF_ERR h e hlen hpos
  have hfold : vs.foldl (pushError QTY_OF_ERR) h = vs := by
    rw [foldl_pushError QTY_OF_ERR hpos vs h hlen, hvs, ← hlen, List.drop_left]
  have htl : h.tail.length = 9 := by
    rw [List.length_tail, hlen]; rfl
  refine ⟨?_, ?_, ?_, hpush, hfold, by rw [hfold], by rw [hfold]⟩
  · rw [pushError_length, hlen]
  · intro i hi
    have hi9 : i < 9 := hi
    rw [hpush, List.getD_eq_getElem?_getD, List.getD_eq_getElem?_getD,
      List.getElem?_append_left (by omega), List.getElem?_tail]
  · rw [hpush, List.getD_eq_getElem?_getD, List.getElem?_append_right (by rw [htl]; decide)]
    simp [htl, QTY_OF_ERR]

theorem pushError_sliding_window_witness :
    [(0 : ℚ), 0, 0, 0, 0, 0, 0, 0, 0, 0].length = QTY_OF_ERR
      ∧ [(1 : ℚ), 2, 3, 4, 5, 6, 7, 8, 9, 10].length = QTY_OF_ERR
      ∧ ([1, 2, 3, 4, 5, 6, 7, 8, 9, 10] : List ℚ).foldl (pushError QTY_OF_ERR)
          [0, 0, 0, 0, 0, 0, 0, 0, 0, 0] = [1, 2, 3, 4, 5, 6, 7, 8, 9, 10] :=
  ⟨rfl, rfl, (pushError_sliding_window [0, 0, 0, 0, 0, 0, 0, 0, 0, 0]
    [1, 2, 3, 4, 5, 6, 7, 8, 9, 10] 0 rfl rfl).2.2.2.2.1⟩

/-! ## Facts about the motor speeds -/

theorem truncQ_intCast (n : Int) : truncQ (n : ℚ) = n := by
  unfold truncQ
  split_ifs <;> simp

theorem truncQ_bounds (c : ℚ) (a : Int) (ha : 0 ≤ a) (h1 : -(a : ℚ) ≤ c) (h2 : c ≤ (a : ℚ)) :
    -a ≤ truncQ c ∧ truncQ c ≤ a := by
  unfold truncQ
  split_ifs with h0
  · constructor
    · have : (0 : Int) ≤ ⌊c⌋ := Int.floor_nonneg.mpr h0
      omega
    · have h3 : ((⌊c⌋ : Int) : ℚ) ≤ (a : ℚ) := le_trans (Int.floor_le c) h2
      exact_mod_cast h3
  · have hc : c ≤ 0 := le_of_lt (not_le.mp h0)
    constructor
    · have h3 : ((-a : Int) : ℚ) ≤ ((⌈c⌉ : Int) : ℚ) := by
        push_cast
        exact le_trans h1 (Int.le_ceil c)
      exact_mod_cast h3
    · have : ⌈c⌉ ≤ (0 : Int) := Int.ceil_le.mpr (by exact_mod_cast hc)
      omega

theorem truncQ_bounds_of_lt (c : ℚ) (a : Int) (ha : 0 < a) (h1 : -(a : ℚ) < c)
    (h2 : c < (a : ℚ)) : -a < truncQ c ∧ truncQ c < a := by
  unfold truncQ
  split_ifs with h0
  · constructor
    · have : (0 : Int) ≤ ⌊c⌋ := Int.floor_nonneg.mpr h0
      omega
    · exact Int.floor_lt.mpr h2
  · have hc : c ≤ 0 := le_of_lt (not_le.mp h0)
    constructor
    · have h3 : ((-a : Int) : ℚ) < c := by push_cast; exact h1
      exact Int.lt_ceil.mpr h3
    · have : ⌈c⌉ ≤ (0 : Int) := Int.ceil_le.mpr (by exact_mod_cast hc)
      omega

/-- While the truncated correction stays within `± 32612` no 16-bit conversion wraps:
the raw speeds are `AVG_SPEED ∓` the truncated correction. -/
theorem raw_speeds_of_truncQ (c : ℚ) (h1 : -32612 ≤ truncQ c) (h2 : truncQ c ≤ 32612) :
    left_raw c = 155 - truncQ c ∧ right_raw c = 155 + truncQ c := by
  unfold left_raw right_raw toInt16 castU16 AVG_SPEED
  constructor
  · split_ifs <;> omega
  · split_ifs <;> omega

theorem validateRange_eq_clampDuty (s : Int) : validateRange s = clampDuty s := by
  unfold validateRange clampDuty
  split_ifs <;> omega

/-- While the truncated correction stays within `± 32612` the validated speeds are the
saturating clamps of `AVG_SPEED ∓` the truncated correction. -/
theorem validated_speeds_eq_clamp (c : ℚ) (h1 : -32612 ≤ truncQ c) (h2 : truncQ c ≤ 32612) :
    left_motor_speed c = clampDuty (155 - truncQ c)
      ∧ right_motor_speed c = clampDuty (155 + truncQ c) := by
  obtain ⟨hl, hr⟩ := raw_speeds_of_truncQ c h1 h2
  unfold left_motor_speed right_motor_speed
  rw [hl, hr, validateRange_eq_clampDuty, validateRange_eq_clampDuty]
  exact ⟨rfl, rfl⟩

theorem truncQ_42875 : truncQ 42.875 = 42 := by
  unfold truncQ
  rw [if_pos (by norm_num)]
  rw [Int.floor_eq_iff]
  norm_num

theorem round_42875 : round (42.875 : ℚ) = 43 := by
  rw [round_eq, Int.floor_eq_iff]
  norm_num

theorem raw_speeds_42875 : left_raw 42.875 = 113 ∧ right_raw 42.875 = 197 := by
  have h := raw_speeds_of_truncQ 42.875 (by rw [truncQ_42875]; decide)
    (by rw [truncQ_42875]; decide)
  rw [truncQ_42875] at h
  exact h

theorem speeds_40000 : left_motor_speed 40000 = 255 ∧ right_motor_speed 40000 = 0 := by
  have ht : truncQ 40000 = 40000 := by
    have h := truncQ_intCast 40000
    norm_num at h
    exact h
  unfold left_motor_speed right_motor_speed left_raw right_raw castU16
  rw [ht]
  decide

theorem speeds_300 : left_motor_speed 300 = 0 ∧ right_motor_speed 300 = 255 := by
  have ht : truncQ 300 = 300 := by
    have h := truncQ_intCast 300
    norm_num at h
    exact h
  unfold left_motor_speed right_motor_speed left_raw right_raw castU16
  rw [ht]
  decide

theorem speeds_0 : left_motor_speed 0 = 155 ∧ right_motor_speed 0 = 155 := by
  have ht : truncQ 0 = 0 := by
    have h := truncQ_intCast 0
    norm_num at h
    exact h
  unfold left_motor_speed right_motor_speed left_raw right_raw castU16
  rw [ht]
  decide

theorem castU8_intCast (n : Int) (h0 : 0 ≤ n) (h1 : n ≤ 255) : castU8 (n : ℚ) = n.toNat := by
  unfold castU8
  rw [truncQ_intCast]
  congr 1
  omega

/-- A value within `[0, 255]` is stored in an 8-bit register as its integer part. -/
theorem castU8_of_range (x : ℚ) (h0 : 0 ≤ x) (h1 : x ≤ 255) :
    ((castU8 x : Nat) : Int) = ⌊x⌋ ∧ castU8 x ≤ 255 := by
  have hf0 : (0 : Int) ≤ ⌊x⌋ := Int.floor_nonneg.mpr h0
  have hf1 : ⌊x⌋ ≤ (255 : Int) := by
    have h3 : ((⌊x⌋ : Int) : ℚ) ≤ ((255 : Int) : ℚ) := le_trans (Int.floor_le x) (by simpa using h1)
    exact_mod_cast h3
  have ht : truncQ x = ⌊x⌋ := by
    unfold truncQ
    rw [if_pos h0]
  unfold castU8
  rw [ht]
  constructor <;> omega

/-! ## Facts about the main cycle as configured -/

/-- With 8 sensors the error lies between -62 and 62. -/
theorem CurrentRobotError_eight_bounds (line_data : Fin 8 → Bool) :
    -62 ≤ CurrentRobotError 8 line_data ∧ CurrentRobotError 8 line_data ≤ 62 := by
  rw [CurrentRobotError_eq_sum, Fin.sum_univ_eight]
  have t0 : 0 ≤ sensorTerm 8 line_data 0 ∧ sensorTerm 8 line_data 0 ≤ 343 / 8 := by
    unfold sensorTerm; split_ifs <;> norm_num [sensorOffset]
  have t1 : 0 ≤ sensorTerm 8 line_data 1 ∧ sensorTerm 8 line_data 1 ≤ 125 / 8 := by
    unfold sensorTerm; split_ifs <;> norm_num [sensorOffset]
  have t2 : 0 ≤ sensorTerm 8 line_data 2 ∧ sensorTerm 8 line_data 2 ≤ 27 / 8 := by
    unfold sensorTerm; split_ifs <;> norm_num [sensorOffset]
  have t3 : 0 ≤ sensorTerm 8 line_data 3 ∧ sensorTerm 8 line_data 3 ≤ 1 / 8 := by
    unfold sensorTerm; split_ifs <;> norm_num [sensorOffset, show ((3 : Fin 8) : ℕ) = 3 from rfl]
  have t4 : -(1 / 8) ≤ sensorTerm 8 line_data 4 ∧ sensorTerm 8 line_data 4 ≤ 0 := by
    unfold sensorTerm; split_ifs <;> norm_num [sensorOffset, show ((4 : Fin 8) : ℕ) = 4 from rfl]
  have t5 : -(27 / 8) ≤ sensorTerm 8 line_data 5 ∧ sensorTerm 8 line_data 5 ≤ 0 := by
    unfold sensorTerm; split_ifs <;> norm_num [sensorOffset, show ((5 : Fin 8) : ℕ) = 5 from rfl]
  have t6 : -(125 / 8) ≤ sensorTerm 8 line_data 6 ∧ sensorTerm 8 line_data 6 ≤ 0 := by
    unfold sensorTerm; split_ifs <;> norm_num [sensorOffset, show ((6 : Fin 8) : ℕ) = 6 from rfl]
  have t7 : -(343 / 8) ≤ sensorTerm 8 line_data 7 ∧ sensorTerm 8 line_data 7 ≤ 0 := by
    unfold sensorTerm; split_ifs <;> norm_num [sensorOffset, show ((7 : Fin 8) : ℕ) = 7 from rfl]
  constructor <;> linarith [t0.1, t0.2, t1.1, t1.2, t2.1, t2.2, t3.1, t3.2, t4.1, t4.2,
    t5.1, t5.2, t6.1, t6.2, t7.1, t7.2]

theorem pushError_getD_newest (h : List ℚ) (e : ℚ) (hlen : h.length = 10) :
    (pushError 10 h e).getD 9 0 = e := by
  have htl : h.tail.length = 9 := by
    rw [List.length_tail, hlen]
  rw [pushError_eq 10 h e hlen (by decide), List.getD_eq_getElem?_getD,
    List.getElem?_append_right (by rw [htl])]
  simp [htl]

/-- With the gains `1, 0, 0` the correction of a cycle is the error just pushed. -/
theorem correction_configured (h : List ℚ) (e : ℚ) (hlen : h.length = 10) :
    PID_total_correction 10 1 0 0 (pushError 10 h e) = e := by
  have h9 := pushError_getD_newest h e hlen
  unfold PID_total_correction
  simp only [Nat.reduceSub, h9]
  simp

/-- For a correction between -62 and 62 nothing saturates and nothing wraps: both
values produced for the motor channels lie within `[0, 255]`, and the registers hold
their integer parts. -/
theorem writeMotors_in_range (c : ℚ) (h1 : -62 ≤ c) (h2 : c ≤ 62) :
    0 ≤ (writeMotors true c).leftValue ∧ (writeMotors true c).leftValue ≤ 255
      ∧ 0 ≤ (writeMotors true c).rightValue ∧ (writeMotors true c).rightValue ≤ 255
      ∧ (writeMotors true c).OCR2B ≤ 255 ∧ (writeMotors true c).OCR0B ≤ 255
      ∧ (((writeMotors true c).OCR2B : Nat) : Int) = ⌊(writeMotors true c).leftValue⌋
      ∧ (((writeMotors true c).OCR0B : Nat) : Int) = ⌊(writeMotors true c).rightValue⌋ := by
  obtain ⟨ht1, ht2⟩ := truncQ_bounds c 62 (by decide) (by simpa using h1) (by simpa using h2)
  obtain ⟨hl, hr⟩ := raw_speeds_of_truncQ c (by omega) (by omega)
  have hls : left_motor_speed c = 155 - truncQ c := by
    unfold left_motor_speed validateRange
    rw [hl]
    split_ifs <;> omega
  have hrs : right_motor_speed c = 155 + truncQ c := by
    unfold right_motor_speed validateRange
    rw [hr]
    split_ifs <;> omega
  have hq1 : (-62 : ℚ) ≤ ((truncQ c : Int) : ℚ) := by exact_mod_cast ht1
  have hq2 : ((truncQ c : Int) : ℚ) ≤ (62 : ℚ) := by exact_mod_cast ht2
  have hlv : leftDuty true (left_motor_speed c) = 155 - ((truncQ c : Int) : ℚ) := by
    simp [leftDuty, hls, L_MOTOR_MISMATCH]
  have hrv : rightDuty true (right_motor_speed c)
      = (155 + ((truncQ c : Int) : ℚ)) * (107 / 100) := by
    simp [rightDuty, hrs, R_MOTOR_MISMATCH]
  have hl0 : 0 ≤ leftDuty true (left_motor_speed c) := by rw [hlv]; linarith
  have hl255 : leftDuty true (left_motor_speed c) ≤ 255 := by rw [hlv]; linarith
  have hr0 : 0 ≤ rightDuty true (right_motor_speed c) := by rw [hrv]; linarith
  have hr255 : rightDuty true (right_motor_speed c) ≤ 255 := by rw [hrv]; linarith
  obtain ⟨hcl, hcl255⟩ := castU8_of_range _ hl0 hl255
  obtain ⟨hcr, hcr255⟩ := castU8_of_range _ hr0 hr255
  exact ⟨hl0, hl255, hr0, hr255, hcl255, hcr255, hcl, hcr⟩

theorem runCycles_length (N H kp ki kd : Nat) (notPerfect : Bool) (h : List ℚ)
    (readings : List (Fin N → Bool)) :
    (runCycles N H kp ki kd notPerfect h readings).length = readings.length := by
  induction readings generalizing h with
  | nil => rfl
  | cons r t ih => simp [runCycles, ih]

/-- Every pass of the configured main cycle, from any history of 10 entries, produces
the motor outputs of a correction that is the error of the pass's reading. -/
theorem runCycles_configured_mem (h : List ℚ) (hlen : h.length = 10)
    (readings : List (Fin 8 → Bool)) (o : CycleOutput)
    (ho : o ∈ runCycles 8 10 1 0 0 true h readings) :
    ∃ line_data : Fin 8 → Bool, o = writeMotors true (CurrentRobotError 8 line_data) := by
  induction readings generalizing h with
  | nil => simp [runCycles] at ho
  | cons r t ih =>
    simp only [runCycles, List.mem_cons] at ho
    rcases ho with ho | ho
    · refine ⟨r, ?_⟩
      rw [ho]
      simp only [mainCycle]
      rw [correction_configured h _ hlen]
    · refine ih (mainCycle 8 10 1 0 0 true h r).1 ?_ ho
      simp only [mainCycle]
      rw [pushError_length, hlen]

/-- The 16-bit wrap is reachable through the main cycle: with the gains 255, 0, 255, a
history whose second entry is -62 (sensors 4 to 7 off, nine passes earlier) and a reading
with sensors 0 to 3 off, the correction is 47430 and the validated speeds are left 255
and right 0, although the line lies on the side that asks for left 0 and right 255. -/
theorem mainCycle_reaches_wrap :
    (mainCycle 8 10 255 0 255 true [0, -62, 0, 0, 0, 0, 0, 0, 0, 0]
        (fun i => decide (i.val < 4))).2.correction = 47430
      ∧ (mainCycle 8 10 255 0 255 true [0, -62, 0, 0, 0, 0, 0, 0, 0, 0]
        (fun i => decide (i.val < 4))).2.leftSpeed = 255
      ∧ (mainCycle 8 10 255 0 255 true [0, -62, 0, 0, 0, 0, 0, 0, 0, 0]
        (fun i => decide (i.val < 4))).2.rightSpeed = 0 := by
  have he : CurrentRobotError 8 (fun i => decide (i.val < 4)) = 62 := by
    rw [CurrentRobotError_eq_sum]
    simp [Fin.sum_univ_succ, sensorTerm, sensorOffset]
    norm_num
  have hp : pushError 10 [0, -62, 0, 0, 0, 0, 0, 0, 0, 0] 62
      = [-62, 0, 0, 0, 0, 0, 0, 0, 0, 62] := by
    rw [pushError_eq 10 [0, -62, 0, 0, 0, 0, 0, 0, 0, 0] 62 rfl (by decide)]
    rfl
  have hc : PID_total_correction 10 255 0 255 [-62, 0, 0, 0, 0, 0, 0, 0, 0, 62] = 47430 := by
    unfold PID_total_correction
    simp
    norm_num
  have ht : truncQ 47430 = 47430 := by
    have h := truncQ_intCast 47430
    norm_num at h
    exact h
  have hs : left_motor_speed 47430 = 255 ∧ right_motor_speed 47430 = 0 := by
    unfold left_motor_speed right_motor_speed left_raw right_raw castU16
    rw [ht]
    decide
  simp only [mainCycle, writeMotors, he, hp, hc]
  exact ⟨trivial, hs.1, hs.2⟩

/-- After the mismatch scaling of a clamped 255 the 8-bit register `OCR0B` keeps the low
8 bits of 272, that is 16. -/
theorem OCR0B_after_scaling_255 : (writeMotors true 300).OCR0B = 16 := by
  have ht : truncQ (5457 / 20) = 272 := by
    unfold truncQ
    rw [if_pos (by norm_num), Int.floor_eq_iff]
    norm_num
  have hv : rightDuty true (right_motor_speed 300) = 5457 / 20 := by
    rw [speeds_300.2]
    simp only [rightDuty, R_MOTOR_MISMATCH]
    norm_num
  simp only [writeMotors, hv, castU8, ht]
  decide

/-! ## Claims about the motor speeds -/

/-- C4 (as stated, refuted): for the correction `42.875` the raw speeds are 113 and 197,
not `155 - round 42.875 = 112` and `155 + round 42.875 = 198`. -/
theorem raw_speeds_not_rounded :
    left_raw 42.875 = 113 ∧ right_raw 42.875 = 197
      ∧ round (42.875 : ℚ) = 43
      ∧ left_raw 42.875 ≠ (AVG_SPEED : Int) - round (42.875 : ℚ)
      ∧ right_raw 42.875 ≠ (AVG_SPEED : Int) + round (42.875 : ℚ) := by
  obtain ⟨hl, hr⟩ := raw_speeds_42875
  refine ⟨hl, hr, round_42875, ?_, ?_⟩
  · rw [hl, round_42875]; decide
  · rw [hr, round_42875]; decide

/-- C4 (amended): for every correction `c` of magnitude below 32613 the raw speeds are
`AVG_SPEED - t` and `AVG_SPEED + t`, where `t` is `c` with its fractional part discarded
(the floor of a non-negative `c`, the ceiling of a negative one); for `c = 42.875` they
are 113 and 197. -/
theorem raw_speeds_truncate (c : ℚ) (h1 : -32613 < c) (h2 : c < 32613) :
    left_raw c = (AVG_SPEED : Int) - truncQ c
      ∧ right_raw c = (AVG_SPEED : Int) + truncQ c
      ∧ truncQ c = (if 0 ≤ c then ⌊c⌋ else ⌈c⌉)
      ∧ left_raw 42.875 = 113 ∧ right_raw 42.875 = 197 := by
  obtain ⟨ht1, ht2⟩ := truncQ_bounds_of_lt c 32613 (by decide)
    (by simpa using h1) (by simpa using h2)
  obtain ⟨hl, hr⟩ := raw_speeds_of_truncQ c (by omega) (by omega)
  exact ⟨hl, hr, rfl, raw_speeds_42875.1, raw_speeds_42875.2⟩

theorem raw_speeds_truncate_witness :
    (-32613 : ℚ) < -42.875 ∧ (-42.875 : ℚ) < 32613
      ∧ left_raw (-42.875) = (AVG_SPEED : Int) - truncQ (-42.875)
      ∧ right_raw (-42.875) = (AVG_SPEED : Int) + truncQ (-42.875) :=
  ⟨by norm_num, by norm_num,
    (raw_speeds_truncate (-42.875) (by norm_num) (by norm_num)).1,
    (raw_speeds_truncate (-42.875) (by norm_num) (by norm_num)).2.1⟩

/-- C5 (the code at the failing input): for the correction `40000` the validated speeds
are left 255 and right 0, while the saturating clamps of `155 - 40000` and
`155 + 40000` are 0 and 255: the 16-bit conversions exchange the two saturation cases. -/
theorem validated_speeds_wrap :
    left_motor_speed 40000 = 255 ∧ right_motor_speed 40000 = 0
      ∧ truncQ 40000 = 40000
      ∧ clampDuty ((AVG_SPEED : Int) - 40000) = 0
      ∧ clampDuty ((AVG_SPEED : Int) + 40000) = 255 := by
  have ht : truncQ 40000 = 40000 := by
    have h := truncQ_intCast 40000
    norm_num at h
    exact h
  exact ⟨speeds_40000.1, speeds_40000.2, ht, by decide, by decide⟩

/-- C6: for the correction 300 the speeds are clamped to left 0 and right 255 before
the mismatch scaling; the value produced for `OCR0B` is then `255 * 1.07 = 272.85`,
above 255 and not clamped again, and `OCR2B` receives `0 * 1.0 = 0`.  For the correction
0 with the mismatch compensation disabled the pair produced is (155, 155). -/
theorem mismatch_scaling_not_reclamped :
    (writeMotors MOTORS_NOT_PERFECT 300).leftSpeed = 0
      ∧ (writeMotors MOTORS_NOT_PERFECT 300).rightSpeed = 255
      ∧ (writeMotors MOTORS_NOT_PERFECT 300).rightValue = 255 * 1.07
      ∧ (writeMotors MOTORS_NOT_PERFECT 300).rightValue = 272.85
      ∧ (255 : ℚ) < (writeMotors MOTORS_NOT_PERFECT 300).rightValue
      ∧ (writeMotors MOTORS_NOT_PERFECT 300).leftValue = 0 * 1.0
      ∧ (writeMotors MOTORS_NOT_PERFECT 300).OCR2B = 0
      ∧ (writeMotors false 0).leftValue = 155
      ∧ (writeMotors false 0).rightValue = 155
      ∧ (writeMotors false 0).OCR2B = 155
      ∧ (writeMotors false 0).OCR0B = 155 := by
  obtain ⟨hl, hr⟩ := speeds_300
  obtain ⟨hl0, hr0⟩ := speeds_0
  have h155 : castU8 155 = 155 := by
    have h := castU8_intCast 155 (by decide) (by decide)
    norm_num at h
    exact h
  have h0 : castU8 0 = 0 := by
    have h := castU8_intCast 0 (by decide) (by decide)
    norm_num at h
    exact h
  simp only [writeMotors, hl, hr, hl0, hr0, leftDuty, rightDuty, MOTORS_NOT_PERFECT,
    L_MOTOR_MISMATCH, R_MOTOR_MISMATCH]
  norm_num
  exact ⟨h0, h155⟩

/-! ## Claims about the main cycle as configured -/

/-- C7: under the configured constants, from the all-zero history, for every finite
sequence of readings there is one output per cycle and at every cycle the values
produced for `OCR2B` and `OCR0B`, mismatch scaling included, lie in `[0, 255]`; the
registers hold their integer parts, and `OCR2A`, `OCR0A` are 0. -/
theorem configured_outputs_in_range (readings : List (Fin QTY_OF_SENSORS → Bool))
    (o : CycleOutput) (ho : o ∈ runConfigured readings) :
    (runConfigured readings).length = readings.length
      ∧ 0 ≤ o.leftValue ∧ o.leftValue ≤ 255
      ∧ 0 ≤ o.rightValue ∧ o.rightValue ≤ 255
      ∧ o.OCR2B ≤ 255 ∧ o.OCR0B ≤ 255
      ∧ ((o.OCR2B : Nat) : Int) = ⌊o.leftValue⌋
      ∧ ((o.OCR0B : Nat) : Int) = ⌊o.rightValue⌋
      ∧ o.OCR2A = 0 ∧ o.OCR0A = 0 := by
  obtain ⟨line_data, rfl⟩ :=
    runCycles_configured_mem (initialHistory 10) (by simp [initialHistory]) readings o ho
  obtain ⟨h1, h2⟩ := CurrentRobotError_eight_bounds line_data
  obtain ⟨a, b, c, d, e, f, g, k⟩ := writeMotors_in_range _ h1 h2
  exact ⟨runCycles_length _ _ _ _ _ _ _ _, a, b, c, d, e, f, g, k, rfl, rfl⟩

theorem configured_outputs_in_range_witness :
    (mainCycle 8 10 1 0 0 true (initialHistory 10) (onlySensor 8 0)).2
        ∈ runConfigured [onlySensor 8 0]
      ∧ (mainCycle 8 10 1 0 0 true (initialHistory 10) (onlySensor 8 0)).2.rightValue ≤ 255 :=
  ⟨List.mem_cons_self _ _,
    (configured_outputs_in_range [onlySensor 8 0]
      (mainCycle 8 10 1 0 0 true (initialHistory 10) (onlySensor 8 0)).2
      (List.mem_cons_self _ _)).2.2.2.2.1⟩

/-- C10: for every even sensor count (so for 8 and for 2, 4, ..., 16) the reading in
which all sensors read non-zero has error exactly 0, the same as the reading in which
all sensors read zero; the configured main cycle then produces the same result for
both, with correction 0 and raw speeds (155, 155). -/
theorem CurrentRobotError_all_off_line (N : Nat) (hN : N % 2 = 0)
    (error_history : List ℚ) (hlen : error_history.length = QTY_OF_ERR) :
    CurrentRobotError N (fun _ => true) = 0
      ∧ CurrentRobotError N (fun _ => true) = CurrentRobotError N (fun _ => false)
      ∧ mainCycle N QTY_OF_ERR kP kI kD MOTORS_NOT_PERFECT error_history (fun _ => true)
          = mainCycle N QTY_OF_ERR kP kI kD MOTORS_NOT_PERFECT error_history (fun _ => false)
      ∧ (mainCycle N QTY_OF_ERR kP kI kD MOTORS_NOT_PERFECT error_history
          (fun _ => true)).2.correction = 0
      ∧ left_raw (mainCycle N QTY_OF_ERR kP kI kD MOTORS_NOT_PERFECT error_history
          (fun _ => true)).2.correction = 155
      ∧ right_raw (mainCycle N QTY_OF_ERR kP kI kD MOTORS_NOT_PERFECT error_history
          (fun _ => true)).2.correction = 155 := by
  have h1 := CurrentRobotError_all_true_even N hN
  have h0 := CurrentRobotError_all_false N
  have hc : (mainCycle N QTY_OF_ERR kP kI kD MOTORS_NOT_PERFECT error_history
      (fun _ => true)).2.correction = 0 := by
    simp only [mainCycle, writeMotors, h1]
    exact correction_configured error_history 0 hlen
  have ht : truncQ 0 = 0 := by
    have h := truncQ_intCast 0
    norm_num at h
    exact h
  have hraw := raw_speeds_of_truncQ 0 (by rw [ht]; decide) (by rw [ht]; decide)
  rw [ht] at hraw
  refine ⟨h1, by rw [h1, h0], ?_, hc, ?_, ?_⟩
  · simp only [mainCycle, h1, h0]
  · rw [hc]; exact hraw.1
  · rw [hc]; exact hraw.2

theorem CurrentRobotError_all_off_line_witness :
    8 % 2 = 0 ∧ (initialHistory 10).length = QTY_OF_ERR
      ∧ CurrentRobotError 8 (fun _ => true) = 0 :=
  ⟨rfl, rfl, (CurrentRobotError_all_off_line 8 rfl (initialHistory 10) rfl).1⟩

end Folkrace
